import Mathlib

/-!
Shallow embedding of the document ingestion and retrieval pipeline of the
replier backend (documentProcessor / vectorOperations modules and the
background ingestion job of the server), together with proofs of the
specification's testable properties.

Strings are modelled as `List Char`.  The JavaScript regular-expression
character class `\s` and the stripped control-character class are modelled
by explicit decidable character predicates.  External effects (pdf parsing,
HTTP fetch, the embedding provider, the vector store) are modelled as
oracle inputs of `Except`/`Bool` shape; the functions under verification
are translated statement by statement from the source.
-/

namespace Replier

/-- Characters matched by the JavaScript regex class `\s`
(whitespace, as used by `replace(/\s+/g, " ")` and `String.prototype.trim`). -/
def isJsWs (c : Char) : Bool :=
  let n := c.toNat
  (9 ≤ n && n ≤ 13) || n == 32 || n == 0xA0 || n == 0x1680 ||
    (0x2000 ≤ n && n ≤ 0x200A) || n == 0x2028 || n == 0x2029 ||
    n == 0x202F || n == 0x205F || n == 0x3000 || n == 0xFEFF

/-- Characters matched by the control-character class
`[\x00-\x08\x0B-\x0C\x0E-\x1F\x7F]` removed by `cleanText`. -/
def isRemovedCtrl (c : Char) : Bool :=
  let n := c.toNat
  n ≤ 8 || (11 ≤ n && n ≤ 12) || (14 ≤ n && n ≤ 31) || n == 127

/-- Auxiliary scan for `replace(/\s+/g, " ")`: the flag records whether the
previously consumed character was whitespace (in which case further
whitespace of the same run is dropped). -/
def collapseWsAux : Bool → List Char → List Char
  | _, [] => []
  | b, c :: rest =>
    if isJsWs c then
      if b then collapseWsAux true rest else ' ' :: collapseWsAux true rest
    else
      c :: collapseWsAux false rest

/-- Model of `text.replace(/\s+/g, " ")`: every maximal run of whitespace
characters becomes a single space. -/
def collapseWs (l : List Char) : List Char :=
  collapseWsAux false l

/-- Auxiliary scan for `replace(/\n{3,}/g, "\n\n")`: the counter is the
number of immediately preceding newlines already emitted (capped at 2). -/
def collapseNlAux : Nat → List Char → List Char
  | _, [] => []
  | k, c :: rest =>
    if c = '\n' then
      if 2 ≤ k then collapseNlAux k rest
      else '\n' :: collapseNlAux (k + 1) rest
    else
      c :: collapseNlAux 0 rest

/-- Model of `text.replace(/\n{3,}/g, "\n\n")`: every maximal run of three or
more newlines becomes exactly two. -/
def collapseNl (l : List Char) : List Char :=
  collapseNlAux 0 l

/-- Model of `text.replace(/[\x00-\x08\x0B-\x0C\x0E-\x1F\x7F]/g, "")`. -/
def removeCtrl (l : List Char) : List Char :=
  l.filter (fun c => !isRemovedCtrl c)

/-- Drop trailing JavaScript whitespace (the right half of `trim()`). -/
def dropWsEnd (l : List Char) : List Char :=
  (l.reverse.dropWhile isJsWs).reverse

/-- Model of JavaScript `String.prototype.trim`. -/
def jsTrim (l : List Char) : List Char :=
  dropWsEnd (l.dropWhile isJsWs)

/-- Model of `cleanText` (documentProcessor): collapse whitespace runs to a
single space, collapse runs of three or more newlines to two, strip control
characters, then trim. -/
def cleanText (l : List Char) : List Char :=
  jsTrim (removeCtrl (collapseNl (collapseWs l)))

/-- Model of `estimateTokenCount`: `Math.ceil(text.length / 4)`. -/
def estimateTokenCount (l : List Char) : Nat :=
  (l.length + 3) / 4

/-- A chunk as produced by `chunkText`
(`{content, token_count, chunk_index}`). -/
structure Chunk where
  content : List Char
  token_count : Nat
  chunk_index : Nat
deriving DecidableEq

/-- Auxiliary scan for `text.split(/\n\n+/)`: `cur` is the piece being
accumulated and `pending` counts newlines seen but not yet classified as
part of a separator (a separator is a run of two or more newlines). -/
def splitNlAux : List Char → Nat → List Char → List (List Char)
  | cur, pending, [] =>
    if 2 ≤ pending then [cur, []]
    else [cur ++ List.replicate pending '\n']
  | cur, pending, c :: rest =>
    if c = '\n' then splitNlAux cur (pending + 1) rest
    else if 2 ≤ pending then cur :: splitNlAux [c] 0 rest
    else splitNlAux (cur ++ List.replicate pending '\n' ++ [c]) 0 rest

/-- Model of `text.split(/\n\n+/)`. -/
def splitNl2 (l : List Char) : List (List Char) :=
  splitNlAux [] 0 l

/-- Model of
`text.split(/\n\n+/).filter(p => p.trim().length > 0)` in `chunkText`. -/
def paragraphsOf (text : List Char) : List (List Char) :=
  (splitNl2 text).filter (fun p => 0 < (jsTrim p).length)

/-- Model of JavaScript `s.slice(-n)` for a non-negative count `n`
(`slice(-0)` is `slice(0)`, the whole string). -/
def jsSliceNeg (l : List Char) (n : Nat) : List Char :=
  if n = 0 then l else l.drop (l.length - n)

/-- The paragraph-accumulation loop of `chunkText`: `cur` is
`currentChunk`, `idx` is `chunkIndex`; emits a chunk when adding the next
paragraph would overflow `chunkCharSize`, seeding the next buffer with the
trailing `overlapCharSize` characters, and emits the non-empty remainder
after the last paragraph. -/
def chunkLoop (chunkCharSize overlapCharSize : Nat) :
    List (List Char) → List Char → Nat → List Chunk
  | [], cur, idx =>
    if 0 < (jsTrim cur).length then
      [⟨jsTrim cur, estimateTokenCount cur, idx⟩]
    else []
  | p :: ps, cur, idx =>
    if cur.length + p.length > chunkCharSize ∧ 0 < cur.length then
      ⟨jsTrim cur, estimateTokenCount cur, idx⟩ ::
        chunkLoop chunkCharSize overlapCharSize ps
          (jsSliceNeg cur overlapCharSize ++ ' ' :: p) (idx + 1)
    else
      chunkLoop chunkCharSize overlapCharSize ps
        (if cur.isEmpty then p else cur ++ '\n' :: '\n' :: p) idx

/-- Model of `chunkText(text, chunkSize = 500, overlap = 100)`. -/
def chunkText (text : List Char) (chunkSize : Nat := 500)
    (overlap : Nat := 100) : List Chunk :=
  let chunks := chunkLoop (chunkSize * 4) (overlap * 4) (paragraphsOf text) [] 0
  if chunks.isEmpty ∧ 0 < (jsTrim text).length then
    [⟨jsTrim text, estimateTokenCount text, 0⟩]
  else chunks

/-- Embedding vectors are opaque payloads for the store operations; their
numeric contents are never inspected by the code under verification. -/
def Emb : Type := List Int
deriving DecidableEq

/-- A row prepared by `storeChunks` for insertion into `company_chunks`;
`original_index` is the chunk's position in the input array, merged into
the metadata object. -/
structure ChunkRecord where
  company_id : List Char
  document_id : List Char
  content : List Char
  embedding : Emb
  chunk_index : Nat
  token_count : Nat
  original_index : Nat
deriving DecidableEq

/-- Model of the `chunks.map((chunk, index) => ({...}))` record construction
in `storeChunks` (only reached when the two arrays have equal length). -/
def mkChunkRecords (companyId documentId : List Char) (chunks : List Chunk)
    (embeddings : List Emb) : List ChunkRecord :=
  (chunks.zip embeddings).enum.map fun (i, c, e) =>
    ⟨companyId, documentId, c.content, e, c.chunk_index, c.token_count, i⟩

/-- Auxiliary accumulator for slicing a list into consecutive batches of
`size` elements (`size` positive in all uses). -/
def batchAux (size : Nat) (cur : List α) : List α → List (List α)
  | [] => if cur.isEmpty then [] else [cur]
  | x :: xs =>
    if cur.length + 1 = size then (cur ++ [x]) :: batchAux size [] xs
    else batchAux size (cur ++ [x]) xs

/-- Model of the `for (let i = 0; i < n; i += batchSize) slice(i, i + batchSize)`
batching in `storeChunks`. -/
def batchify (size : Nat) (l : List α) : List (List α) :=
  batchAux size [] l

/-- The batch-insert loop of `storeChunks`: `insertOk i` is the oracle for
whether the `i`-th batch insert succeeds on the store.  Returns the batches
actually written (a failing batch is not written) and either the total
number of inserted records or the store error. -/
def storeGo (insertOk : Nat → Bool) (i : Nat) :
    List (List ChunkRecord) → List (List ChunkRecord) × Except String Nat
  | [] => ([], Except.ok 0)
  | b :: bs =>
    if insertOk i then
      let r := storeGo insertOk (i + 1) bs
      (b :: r.1, r.2.map (· + b.length))
    else
      ([], Except.error "insert failed")

/-- Model of `storeChunks(supabase, companyId, documentId, chunks, embeddings)`:
the length-mismatch check throws before the `try` block (so its message is
not wrapped and nothing is written); otherwise the records are inserted in
batches of 50, store errors being wrapped by the surrounding `catch`. -/
def storeChunksM (companyId documentId : List Char) (chunks : List Chunk)
    (embeddings : List Emb) (insertOk : Nat → Bool) :
    List (List ChunkRecord) × Except String Nat :=
  if chunks.length ≠ embeddings.length then
    ([], Except.error "Chunks and embeddings arrays must have the same length")
  else
    let r := storeGo insertOk 0
      (batchify 50 (mkChunkRecords companyId documentId chunks embeddings))
    (r.1, match r.2 with
      | Except.ok n => Except.ok n
      | Except.error e => Except.error ("Failed to store chunks: " ++ e))

/-- Decidable test for an ASCII hexadecimal digit (`[0-9a-f]` under the
regex's `i` flag). -/
def isHexDigit (c : Char) : Bool :=
  ('0' ≤ c && c ≤ '9') || ('a' ≤ c && c ≤ 'f') || ('A' ≤ c && c ≤ 'F')

/-- Split a string at every hyphen (single-character separator). -/
def splitOnDash : List Char → List (List Char)
  | [] => [[]]
  | c :: rest =>
    if c = '-' then [] :: splitOnDash rest
    else
      match splitOnDash rest with
      | [] => [[c]]
      | p :: ps => (c :: p) :: ps

/-- Model of the anchored UUID regex
`/^[0-9a-f]{8}-[0-9a-f]{4}-[0-9a-f]{4}-[0-9a-f]{4}-[0-9a-f]{12}$/i`
in `retrieveRelevantChunks`. -/
def isUuidShaped (l : List Char) : Bool :=
  ((splitOnDash l).map List.length) == [8, 4, 4, 4, 12] &&
    (splitOnDash l).all (·.all isHexDigit)

/-- A row returned by the `search_company_knowledge` vector search
(only the fields read by the RAG formatter are modelled). -/
structure RetrievedRow where
  filename : List Char
  content : List Char
deriving DecidableEq

/-- Model of `retrieveRelevantChunks(supabase, companyId, queryEmbedding,
limit, similarityThreshold)`.  `searchResult` is the oracle for the store's
vector-search RPC.  The first component records whether the RPC was issued;
the second is the function's outcome, errors wrapped by its `catch`. -/
def retrieveRelevantChunksM (companyId : List Char)
    (searchResult : Except String (List RetrievedRow)) :
    Bool × Except String (List RetrievedRow) :=
  if isUuidShaped companyId then
    (true, match searchResult with
      | Except.ok d => Except.ok d
      | Except.error e => Except.error ("Failed to retrieve chunks: " ++ e))
  else
    (false, Except.error ("Failed to retrieve chunks: Invalid company ID format: "
      ++ String.mk companyId
      ++ ". Must be a valid UUID. Did you visit the Knowledge page to create a company?"))

/-- Model of `formatChunksForContext`. -/
def formatChunksForContext (chunks : List RetrievedRow) : List Char :=
  if chunks.isEmpty then []
  else
    List.intercalate "\n\n".toList
      (chunks.enum.map fun (i, c) =>
        ("[Source " ++ toString (i + 1) ++ ": ").toList ++ c.filename ++
          "]\n".toList ++ c.content ++ "\n---".toList)

/-- A `company_voice_settings` row (text columns are nullable). -/
structure VoiceSettings where
  voice_guidelines : Option (List Char)
  brand_tone : Option (List Char)
  positioning : Option (List Char)
deriving DecidableEq

/-- JavaScript truthiness of a nullable string field (`null` and the empty
string are falsy). -/
def truthyStr : Option (List Char) → Bool
  | none => false
  | some s => !s.isEmpty

/-- Model of `getCompanyVoiceSettings`: a store error is caught and turned
into `null`; otherwise the first row, if any, is returned. -/
def getCompanyVoiceSettingsM
    (selectResult : Except String (List VoiceSettings)) : Option VoiceSettings :=
  match selectResult with
  | Except.error _ => none
  | Except.ok rows => rows.head?

/-- Model of `formatVoiceSettingsForPrompt`. -/
def formatVoiceSettingsForPrompt (vs : Option VoiceSettings) : List Char :=
  match vs with
  | none => []
  | some v =>
    List.intercalate "\n\n".toList
      (((if truthyStr v.voice_guidelines then
          ["Voice Guidelines: ".toList ++ v.voice_guidelines.getD []] else []) ++
        (if truthyStr v.brand_tone then
          ["Brand Tone: ".toList ++ v.brand_tone.getD []] else []) ++
        (if truthyStr v.positioning then
          ["Positioning: ".toList ++ v.positioning.getD []] else [])))

/-- The context object returned by `buildRagContext`. -/
structure RagContext where
  chunks : List RetrievedRow
  formattedChunks : List Char
  voiceSettings : Option VoiceSettings
  formattedVoice : List Char
  hasContext : Bool
deriving DecidableEq

/-- The fallback context returned by the `catch` block of `buildRagContext`. -/
def emptyRagContext : RagContext :=
  ⟨[], [], none, [], false⟩

/-- Oracles for the three external calls made while building RAG context:
query embedding, vector search, and the voice-settings select. -/
structure RagEnv where
  embedResult : Except String Emb
  searchResult : Except String (List RetrievedRow)
  voiceResult : Except String (List VoiceSettings)

/-- Model of `buildRagContext(options)`: any error thrown inside the `try`
block (embedding the query, or `retrieveRelevantChunks` rethrowing) is
caught and replaced by the empty context; `getCompanyVoiceSettings`
swallows its own store error and yields `null`. -/
def buildRagContextM (companyId : List Char) (env : RagEnv) : RagContext :=
  match env.embedResult with
  | Except.error _ => emptyRagContext
  | Except.ok _ =>
    match (retrieveRelevantChunksM companyId env.searchResult).2 with
    | Except.error _ => emptyRagContext
    | Except.ok chunks =>
      let voiceSettings := getCompanyVoiceSettingsM env.voiceResult
      { chunks := chunks
        formattedChunks := formatChunksForContext chunks
        voiceSettings := voiceSettings
        formattedVoice := formatVoiceSettingsForPrompt voiceSettings
        hasContext := decide (0 < chunks.length) || voiceSettings.isSome }

/-- The value produced by a successful `processDocument` / `processUrl` run. -/
structure ProcessedDoc where
  text : List Char
  chunks : List Chunk
  totalTokens : Nat
deriving DecidableEq

/-- Model of `processDocument(fileBuffer, fileType, options)`:
`extractResult` is the oracle for `extractText` (pdf/docx/txt parsing is
external); the cleaned text must be at least 50 characters long, then it is
chunked and the per-chunk token counts are summed. -/
def processDocumentM (extractResult : Except String (List Char))
    (chunkSize : Nat := 500) (overlap : Nat := 100) :
    Except String ProcessedDoc :=
  match extractResult with
  | Except.error e => Except.error e
  | Except.ok rawText =>
    let cleanedText := cleanText rawText
    if cleanedText.length < 50 then
      Except.error "Document too short or empty after cleaning"
    else
      let chunks := chunkText cleanedText chunkSize overlap
      Except.ok ⟨cleanedText, chunks, (chunks.map Chunk.token_count).sum⟩

/-- Model of `processUrl(url, options)`: `extractResult` is the oracle for
`extractTextFromUrl` (network fetch and scraping are external); identical
pipeline to `processDocumentM` apart from the error message. -/
def processUrlM (extractResult : Except String (List Char))
    (chunkSize : Nat := 500) (overlap : Nat := 100) :
    Except String ProcessedDoc :=
  match extractResult with
  | Except.error e => Except.error e
  | Except.ok rawText =>
    let cleanedText := cleanText rawText
    if cleanedText.length < 50 then
      Except.error "URL content too short or empty after cleaning"
    else
      let chunks := chunkText cleanedText chunkSize overlap
      Except.ok ⟨cleanedText, chunks, (chunks.map Chunk.token_count).sum⟩

/-- The mutable fields of a `company_documents` row touched by the
background ingestion job. -/
structure DocRow where
  status : String
  error_message : Option String
  total_chunks : Option Nat
  total_tokens : Option Nat
deriving DecidableEq

/-- Oracles for the external calls of one ingestion run: text extraction,
batch embedding generation, and the per-batch insert outcomes. -/
structure IngestEnv where
  extractResult : Except String (List Char)
  embedBatchResult : Except String (List Emb)
  insertOk : Nat → Bool

/-- Model of `processDocumentAsync(documentId, fileBuffer, fileType,
companyId)`: process, embed, and store; on success the document row is
updated to `completed` with counts, on any error to `failed` with the
error's message.  The second component is the list of chunk batches
actually written to the store. -/
def processDocumentAsyncM (env : IngestEnv) (companyId documentId : List Char)
    (doc : DocRow) : DocRow × List (List ChunkRecord) :=
  match processDocumentM env.extractResult with
  | Except.error e =>
    ({ doc with status := "failed", error_message := some e }, [])
  | Except.ok result =>
    match env.embedBatchResult with
    | Except.error e =>
      ({ doc with
          status := "failed"
          error_message := some ("Failed to generate batch embeddings: " ++ e) }, [])
    | Except.ok embeddings =>
      match storeChunksM companyId documentId result.chunks embeddings
          env.insertOk with
      | (writes, Except.error e) =>
        ({ doc with status := "failed", error_message := some e }, writes)
      | (writes, Except.ok n) =>
        ({ doc with
            status := "completed"
            total_chunks := some n
            total_tokens := some result.totalTokens },
         writes)

/-- Whether the first character of a list is JavaScript whitespace
(used to state facts about the whitespace-collapsing scan). -/
def headWs : List Char → Bool
  | [] => false
  | c :: _ => isJsWs c

/-- No two adjacent characters are both JavaScript whitespace: the shape
invariant of whitespace-collapsed text. -/
def noAdjWs : List Char → Bool
  | [] => true
  | [_] => true
  | a :: b :: rest => (!(isJsWs a && isJsWs b)) && noAdjWs (b :: rest)

/-! ### Facts about `jsTrim` -/

theorem head?_dropWhile_false (p : Char → Bool) :
    ∀ (l : List Char) (c : Char), (l.dropWhile p).head? = some c → p c = false := by
  intro l
  induction l with
  | nil => intro c h; simp [List.dropWhile] at h
  | cons a t ih =>
    intro c h
    rw [List.dropWhile_cons] at h
    by_cases hp : p a = true
    · rw [if_pos hp] at h; exact ih c h
    · rw [if_neg hp] at h
      simp only [List.head?_cons, Option.some.injEq] at h
      subst h
      simpa using hp

theorem dropWhile_eq_self_of_head?_false (p : Char → Bool) (l : List Char)
    (h : ∀ c, l.head? = some c → p c = false) : l.dropWhile p = l := by
  cases l with
  | nil => rfl
  | cons a t =>
    rw [List.dropWhile_cons, if_neg]
    simp [h a rfl]

theorem dropWsEnd_append (x : List Char) :
    dropWsEnd x ++ (x.reverse.takeWhile isJsWs).reverse = x := by
  have h := congrArg List.reverse (List.takeWhile_append_dropWhile isJsWs x.reverse)
  rw [List.reverse_append, List.reverse_reverse] at h
  exact h

theorem head?_dropWsEnd (x : List Char) (c : Char)
    (h : (dropWsEnd x).head? = some c) : x.head? = some c := by
  rw [← dropWsEnd_append x, List.head?_append, h]
  rfl

theorem getLast?_dropWsEnd_false (x : List Char) (c : Char)
    (h : (dropWsEnd x).getLast? = some c) : isJsWs c = false := by
  unfold dropWsEnd at h
  rw [List.getLast?_reverse] at h
  exact head?_dropWhile_false isJsWs x.reverse c h

theorem head?_jsTrim_false (l : List Char) (c : Char)
    (h : (jsTrim l).head? = some c) : isJsWs c = false :=
  head?_dropWhile_false isJsWs l c (head?_dropWsEnd (l.dropWhile isJsWs) c h)

theorem getLast?_jsTrim_false (l : List Char) (c : Char)
    (h : (jsTrim l).getLast? = some c) : isJsWs c = false :=
  getLast?_dropWsEnd_false (l.dropWhile isJsWs) c h

theorem dropWsEnd_eq_self (x : List Char)
    (h : ∀ c, x.getLast? = some c → isJsWs c = false) : dropWsEnd x = x := by
  unfold dropWsEnd
  rw [dropWhile_eq_self_of_head?_false, List.reverse_reverse]
  intro c hc
  rw [List.head?_reverse] at hc
  exact h c hc

theorem jsTrim_idem (l : List Char) : jsTrim (jsTrim l) = jsTrim l := by
  have h1 : (jsTrim l).dropWhile isJsWs = jsTrim l :=
    dropWhile_eq_self_of_head?_false _ _ (fun c hc => head?_jsTrim_false l c hc)
  show dropWsEnd ((jsTrim l).dropWhile isJsWs) = jsTrim l
  rw [h1]
  exact dropWsEnd_eq_self _ (fun c hc => getLast?_jsTrim_false l c hc)

theorem mem_jsTrim (l : List Char) (c : Char) (h : c ∈ jsTrim l) : c ∈ l := by
  unfold jsTrim dropWsEnd at h
  rw [List.mem_reverse] at h
  have h2 := (List.dropWhile_sublist isJsWs).subset h
  rw [List.mem_reverse] at h2
  exact (List.dropWhile_sublist isJsWs).subset h2

theorem length_jsTrim_le (l : List Char) : (jsTrim l).length ≤ l.length := by
  unfold jsTrim dropWsEnd
  rw [List.length_reverse]
  calc ((l.dropWhile isJsWs).reverse.dropWhile isJsWs).length
      ≤ (l.dropWhile isJsWs).reverse.length :=
        (List.dropWhile_sublist isJsWs).length_le
    _ = (l.dropWhile isJsWs).length := List.length_reverse _
    _ ≤ l.length := (List.dropWhile_sublist isJsWs).length_le

/-! ### Facts about `collapseWs`, `collapseNl`, `removeCtrl` -/

theorem mem_collapseWsAux :
    ∀ (b : Bool) (l : List Char) (c : Char), c ∈ collapseWsAux b l →
      c = ' ' ∨ (isJsWs c = false ∧ c ∈ l) := by
  intro b l
  induction l generalizing b with
  | nil => intro c h; simp [collapseWsAux] at h
  | cons a t ih =>
    intro c h
    by_cases hw : isJsWs a = true
    · cases b with
      | true =>
        simp only [collapseWsAux, hw, if_pos, if_true] at h
        rcases ih true c h with h' | ⟨h1, h2⟩
        · exact Or.inl h'
        · exact Or.inr ⟨h1, List.mem_cons_of_mem a h2⟩
      | false =>
        simp only [collapseWsAux, hw, if_pos, if_false] at h
        rcases List.mem_cons.mp h with h' | h'
        · exact Or.inl h'
        · rcases ih true c h' with h'' | ⟨h1, h2⟩
          · exact Or.inl h''
          · exact Or.inr ⟨h1, List.mem_cons_of_mem a h2⟩
    · simp only [collapseWsAux, hw, if_neg, if_false] at h
      rcases List.mem_cons.mp h with h' | h'
      · subst h'
        exact Or.inr ⟨by simpa using hw, List.mem_cons_self _ _⟩
      · rcases ih false c h' with h'' | ⟨h1, h2⟩
        · exact Or.inl h''
        · exact Or.inr ⟨h1, List.mem_cons_of_mem a h2⟩

theorem mem_collapseWs (l : List Char) (c : Char) (h : c ∈ collapseWs l) :
    c = ' ' ∨ (isJsWs c = false ∧ c ∈ l) :=
  mem_collapseWsAux false l c h

theorem newline_not_mem_collapseWs (l : List Char) : '\n' ∉ collapseWs l := by
  intro h
  rcases mem_collapseWs l '\n' h with h' | ⟨h1, _⟩
  · exact absurd h' (by decide)
  · exact absurd h1 (by decide)

theorem collapseNlAux_eq_self (l : List Char) :
    ∀ k, '\n' ∉ l → collapseNlAux k l = l := by
  induction l with
  | nil => intro k _; rfl
  | cons a t ih =>
    intro k h
    have ha : ¬a = '\n' := fun he => h (he ▸ List.mem_cons_self a t)
    rw [collapseNlAux, if_neg ha, ih 0 (fun hm => h (List.mem_cons_of_mem a hm))]

theorem collapseNl_collapseWs (l : List Char) :
    collapseNl (collapseWs l) = collapseWs l :=
  collapseNlAux_eq_self (collapseWs l) 0 (newline_not_mem_collapseWs l)

theorem mem_cleanText (t : List Char) (c : Char) (h : c ∈ cleanText t) :
    c ∈ collapseWs t := by
  unfold cleanText at h
  rw [collapseNl_collapseWs] at h
  exact List.mem_of_mem_filter (mem_jsTrim _ c h)

theorem newline_not_mem_cleanText (t : List Char) : '\n' ∉ cleanText t :=
  fun h => newline_not_mem_collapseWs t (mem_cleanText t '\n' h)

theorem cleanText_trimmed (t : List Char) : jsTrim (cleanText t) = cleanText t :=
  jsTrim_idem (removeCtrl (collapseNl (collapseWs t)))

/-! ### Facts about the chunker -/

theorem splitNlAux_no_newline :
    ∀ (l cur : List Char), '\n' ∉ l → splitNlAux cur 0 l = [cur ++ l] := by
  intro l
  induction l with
  | nil => intro cur _; simp [splitNlAux]
  | cons a t ih =>
    intro cur h
    have ha : ¬a = '\n' := fun he => h (he ▸ List.mem_cons_self a t)
    rw [splitNlAux, if_neg ha, if_neg (by decide : ¬2 ≤ 0)]
    rw [ih (cur ++ List.replicate 0 '\n' ++ [a])
      (fun hm => h (List.mem_cons_of_mem a hm))]
    simp

theorem splitNl2_no_newline (l : List Char) (h : '\n' ∉ l) : splitNl2 l = [l] := by
  have h2 := splitNlAux_no_newline l [] h
  simpa [splitNl2] using h2

theorem paragraphsOf_single (l : List Char) (hnl : '\n' ∉ l) (ht : jsTrim l = l)
    (hne : l ≠ []) : paragraphsOf l = [l] := by
  unfold paragraphsOf
  rw [splitNl2_no_newline l hnl]
  simp [ht, List.length_pos, hne]

theorem chunkText_single (u : List Char) (cs ov : Nat) (hnl : '\n' ∉ u)
    (ht : jsTrim u = u) (hne : u ≠ []) :
    chunkText u cs ov = [⟨u, estimateTokenCount u, 0⟩] := by
  have hpos : 0 < (jsTrim u).length := by
    rw [ht]
    exact List.length_pos.mpr hne
  have hloop : chunkLoop (cs * 4) (ov * 4) [u] [] 0 =
      [⟨u, estimateTokenCount u, 0⟩] := by
    rw [chunkLoop, if_neg (by simp)]
    simp only [List.isEmpty_nil, if_true]
    rw [chunkLoop, if_pos hpos, ht]
  unfold chunkText
  rw [paragraphsOf_single u hnl ht hne, hloop]
  rw [if_neg (by simp)]

theorem chunkText_nil (cs ov : Nat) : chunkText [] cs ov = [] := rfl

theorem chunkText_def (text : List Char) (cs ov : Nat) :
    chunkText text cs ov =
      if (chunkLoop (cs * 4) (ov * 4) (paragraphsOf text) [] 0).isEmpty ∧
          0 < (jsTrim text).length then
        [⟨jsTrim text, estimateTokenCount text, 0⟩]
      else chunkLoop (cs * 4) (ov * 4) (paragraphsOf text) [] 0 := rfl

theorem chunkLoop_indices (cs4 ov4 : Nat) :
    ∀ (ps : List (List Char)) (cur : List Char) (idx : Nat),
      (chunkLoop cs4 ov4 ps cur idx).map Chunk.chunk_index =
        List.range' idx (chunkLoop cs4 ov4 ps cur idx).length := by
  intro ps
  induction ps with
  | nil =>
    intro cur idx
    rw [chunkLoop]
    split
    · simp [List.range'_succ]
    · simp
  | cons p ps ih =>
    intro cur idx
    rw [chunkLoop]
    split
    · simp only [List.map_cons, List.length_cons, List.range'_succ]
      rw [ih]
    · exact ih _ _

theorem chunkLoop_token (cs4 ov4 : Nat) :
    ∀ (ps : List (List Char)) (cur : List Char) (idx : Nat) (c : Chunk),
      c ∈ chunkLoop cs4 ov4 ps cur idx →
        ∃ b, c.content = jsTrim b ∧ c.token_count = estimateTokenCount b := by
  intro ps
  induction ps with
  | nil =>
    intro cur idx c h
    rw [chunkLoop] at h
    split at h
    · rw [List.mem_singleton] at h
      subst h
      exact ⟨cur, rfl, rfl⟩
    · simp at h
  | cons p ps ih =>
    intro cur idx c h
    rw [chunkLoop] at h
    split at h
    · rcases List.mem_cons.mp h with h' | h'
      · subst h'
        exact ⟨cur, rfl, rfl⟩
      · exact ih _ _ c h'
    · exact ih _ _ c h

theorem estimateTokenCount_jsTrim_le (b : List Char) :
    estimateTokenCount (jsTrim b) ≤ estimateTokenCount b :=
  Nat.div_le_div_right (Nat.add_le_add_right (length_jsTrim_le b) 3)

/-! ### Idempotence machinery for the cleaner -/

theorem noAdjWs_tail (c : Char) (l : List Char)
    (h : noAdjWs (c :: l) = true) : noAdjWs l = true := by
  cases l with
  | nil => rfl
  | cons b t =>
    rw [noAdjWs, Bool.and_eq_true] at h
    exact h.2

theorem noAdjWs_append_right (l₁ l₂ : List Char)
    (h : noAdjWs (l₁ ++ l₂) = true) : noAdjWs l₂ = true := by
  induction l₁ with
  | nil => exact h
  | cons a t ih => exact ih (noAdjWs_tail a (t ++ l₂) h)

theorem noAdjWs_append_left (l₁ l₂ : List Char)
    (h : noAdjWs (l₁ ++ l₂) = true) : noAdjWs l₁ = true := by
  induction l₁ with
  | nil => rfl
  | cons a t ih =>
    cases t with
    | nil => rfl
    | cons b t' =>
      have h' : (!(isJsWs a && isJsWs b)) = true ∧
          noAdjWs (b :: (t' ++ l₂)) = true := by
        rw [List.cons_append, List.cons_append, noAdjWs, Bool.and_eq_true] at h
        exact h
      have h2 := ih (by rw [List.cons_append]; exact h'.2)
      rw [noAdjWs, Bool.and_eq_true]
      exact ⟨h'.1, h2⟩

theorem collapseWsAux_noAdj :
    ∀ (l : List Char) (b : Bool),
      noAdjWs (collapseWsAux b l) = true ∧
        (b = true → headWs (collapseWsAux b l) = false) := by
  intro l
  induction l with
  | nil => intro b; exact ⟨rfl, fun _ => rfl⟩
  | cons a t ih =>
    intro b
    by_cases hw : isJsWs a = true
    · cases b with
      | true =>
        simp only [collapseWsAux, hw, if_true]
        exact ⟨(ih true).1, fun _ => (ih true).2 rfl⟩
      | false =>
        simp only [collapseWsAux, hw, if_true, Bool.false_eq_true, if_false]
        rcases ih true with ⟨hn, hh⟩
        constructor
        · cases hout : collapseWsAux true t with
          | nil => rfl
          | cons x xs =>
            rw [noAdjWs, Bool.and_eq_true]
            refine ⟨?_, by rw [← hout]; exact hn⟩
            have hx : isJsWs x = false := by
              have h3 := hh rfl
              rw [hout] at h3
              exact h3
            simp [hx]
        · intro hb; cases hb
    · simp only [collapseWsAux, hw, if_false, Bool.false_eq_true]
      rcases ih false with ⟨hn, _⟩
      constructor
      · cases hout : collapseWsAux false t with
        | nil => rfl
        | cons x xs =>
          rw [noAdjWs, Bool.and_eq_true]
          refine ⟨?_, by rw [← hout]; exact hn⟩
          simp [show isJsWs a = false by simpa using hw]
      · intro _
        show isJsWs a = false
        simpa using hw

theorem collapseWsAux_true_of_headWs_false (l : List Char)
    (h : headWs l = false) : collapseWsAux true l = collapseWsAux false l := by
  cases l with
  | nil => rfl
  | cons a t =>
    have ha : isJsWs a = false := h
    simp [collapseWsAux, ha]

theorem collapseWsAux_self :
    ∀ (l : List Char), (∀ c ∈ l, isJsWs c = true → c = ' ') →
      noAdjWs l = true → collapseWsAux false l = l := by
  intro l
  induction l with
  | nil => intro _ _; rfl
  | cons a t ih =>
    intro hsp hadj
    have iht := ih (fun c hc hwc => hsp c (List.mem_cons_of_mem a hc) hwc)
      (noAdjWs_tail a t hadj)
    by_cases hw : isJsWs a = true
    · have ha : a = ' ' := hsp a (List.mem_cons_self a t) hw
      have hhead : headWs t = false := by
        cases t with
        | nil => rfl
        | cons b t' =>
          rw [noAdjWs, Bool.and_eq_true] at hadj
          have h1 := hadj.1
          simp only [hw, Bool.true_and, Bool.not_eq_eq_eq_not, Bool.not_true] at h1
          exact h1
      simp only [collapseWsAux, hw, if_true, Bool.false_eq_true, if_false]
      rw [collapseWsAux_true_of_headWs_false t hhead, iht, ha]
    · simp only [collapseWsAux, hw, if_false, Bool.false_eq_true]
      rw [iht]

theorem removeCtrl_eq_self (l : List Char)
    (h : ∀ c ∈ l, isRemovedCtrl c = false) : removeCtrl l = l := by
  unfold removeCtrl
  rw [List.filter_eq_self]
  intro a ha
  simp [h a ha]

theorem cleanText_eq_trim_collapse (t : List Char)
    (h : ∀ c ∈ t, isRemovedCtrl c = true → isJsWs c = true) :
    cleanText t = jsTrim (collapseWs t) := by
  unfold cleanText
  rw [collapseNl_collapseWs, removeCtrl_eq_self]
  intro c hc
  rcases mem_collapseWs t c hc with rfl | ⟨h1, h2⟩
  · decide
  · by_cases hr : isRemovedCtrl c = true
    · rw [h c h2 hr] at h1
      cases h1
    · simpa using hr

theorem noAdjWs_jsTrim (l : List Char) (h : noAdjWs l = true) :
    noAdjWs (jsTrim l) = true := by
  have hx : noAdjWs (l.dropWhile isJsWs) = true := by
    refine noAdjWs_append_right (l.takeWhile isJsWs) _ ?_
    rw [List.takeWhile_append_dropWhile]
    exact h
  show noAdjWs (dropWsEnd (l.dropWhile isJsWs)) = true
  refine noAdjWs_append_left _ ((l.dropWhile isJsWs).reverse.takeWhile isJsWs).reverse ?_
  rw [dropWsEnd_append]
  exact hx

/-! ### Facts about the vector store operations -/

theorem storeGo_all_ok (insertOk : Nat → Bool) (h : ∀ i, insertOk i = true) :
    ∀ (bs : List (List ChunkRecord)) (i : Nat),
      storeGo insertOk i bs = (bs, Except.ok (bs.map List.length).sum) := by
  intro bs
  induction bs with
  | nil => intro i; simp [storeGo]
  | cons b t ih =>
    intro i
    rw [storeGo, if_pos (h i), ih (i + 1)]
    have hc : (t.map List.length).sum + b.length = b.length + (t.map List.length).sum :=
      Nat.add_comm _ _
    simp [Except.map, List.sum_cons, hc]

theorem batchAux_flatten (size : Nat) :
    ∀ (l cur : List α), (batchAux size cur l).flatten = cur ++ l := by
  intro l
  induction l with
  | nil =>
    intro cur
    by_cases h : cur.isEmpty
    · rw [batchAux, if_pos h]
      simp [List.isEmpty_iff.mp h]
    · rw [batchAux, if_neg h]
      simp
  | cons x xs ih =>
    intro cur
    rw [batchAux]
    split
    · simp [ih]
    · rw [ih]
      simp

theorem batchAux_size_le (size : Nat) :
    ∀ (l cur : List α), cur.length < size →
      ∀ b ∈ batchAux size cur l, b.length ≤ size := by
  intro l
  induction l with
  | nil =>
    intro cur hcur b hb
    rw [batchAux] at hb
    split at hb
    · simp at hb
    · rw [List.mem_singleton] at hb
      subst hb
      exact Nat.le_of_lt hcur
  | cons x xs ih =>
    intro cur hcur b hb
    rw [batchAux] at hb
    split at hb
    case isTrue hs =>
      rcases List.mem_cons.mp hb with rfl | h'
      · simp only [List.length_append, List.length_singleton]
        omega
      · exact ih [] (by simp; omega) b h'
    case isFalse hs =>
      refine ih (cur ++ [x]) ?_ b hb
      simp only [List.length_append, List.length_singleton]
      omega

theorem mkChunkRecords_length (cid did : List Char) (chunks : List Chunk)
    (embeddings : List Emb) (h : chunks.length = embeddings.length) :
    (mkChunkRecords cid did chunks embeddings).length = chunks.length := by
  unfold mkChunkRecords
  rw [List.length_map, List.enum_length, List.length_zip, h, min_self]

theorem storeChunksM_ok (cid did : List Char) (chunks : List Chunk)
    (embeddings : List Emb) (insertOk : Nat → Bool)
    (hlen : chunks.length = embeddings.length) (hok : ∀ i, insertOk i = true) :
    storeChunksM cid did chunks embeddings insertOk =
      (batchify 50 (mkChunkRecords cid did chunks embeddings),
        Except.ok chunks.length) := by
  unfold storeChunksM
  rw [if_neg (by simp [hlen])]
  rw [batchify, storeGo_all_ok insertOk hok]
  have h1 : ((batchAux 50 [] (mkChunkRecords cid did chunks embeddings)).map
      List.length).sum = chunks.length := by
    rw [← List.length_flatten, batchAux_flatten]
    simp [mkChunkRecords_length cid did chunks embeddings hlen]
  rw [h1]

/-! ### Claim theorems -/

/-- C1: for every input string `t`, `cleanText t` contains no newline
character (all whitespace runs collapse to single spaces), and consequently
for every `t` whose cleaned form is non-empty,
`chunkText (cleanText t) chunkSize overlap` returns exactly one chunk, at
index 0, whose content equals `cleanText t`, regardless of `chunkSize` and
`overlap` and of how long the text is. -/
theorem cleanText_no_newline_single_chunk (t : List Char)
    (chunkSize overlap : Nat) :
    '\n' ∉ cleanText t ∧
      (cleanText t ≠ [] →
        chunkText (cleanText t) chunkSize overlap =
          [⟨cleanText t, estimateTokenCount (cleanText t), 0⟩]) :=
  ⟨newline_not_mem_cleanText t, fun h =>
    chunkText_single (cleanText t) chunkSize overlap
      (newline_not_mem_cleanText t) (cleanText_trimmed t) h⟩

/-- Witness for C1 at a concrete two-paragraph input. -/
theorem cleanText_no_newline_single_chunk_witness :
    cleanText " A document.\n\nWith two paragraphs. ".toList ≠ [] ∧
      chunkText (cleanText " A document.\n\nWith two paragraphs. ".toList) 500 100 =
        [⟨cleanText " A document.\n\nWith two paragraphs. ".toList,
          estimateTokenCount (cleanText " A document.\n\nWith two paragraphs. ".toList),
          0⟩] :=
  ⟨by decide,
    (cleanText_no_newline_single_chunk
      " A document.\n\nWith two paragraphs. ".toList 500 100).2 (by decide)⟩

/-- C2 counterexample: `cleanText` is not idempotent.  On `"a \x00 b"` the
whitespace collapse leaves the two single spaces around the control
character alone, the control character is then removed, and the two spaces
become adjacent; a second clean collapses them. -/
theorem cleanText_not_idem_cex :
    cleanText "a \x00 b".toList = "a  b".toList ∧
      cleanText (cleanText "a \x00 b".toList) = "a b".toList ∧
      cleanText (cleanText "a \x00 b".toList) ≠ cleanText "a \x00 b".toList :=
  ⟨by decide, by decide, by decide⟩

/-- C2 (amended): `cleanText` is idempotent on every input that contains no
non-whitespace control character of the stripped class (codes 0x00-0x08,
0x0E-0x1F, 0x7F); in particular cleaning already-clean such text is a
no-op. -/
theorem cleanText_idem_no_ctrl (t : List Char)
    (h : ∀ c ∈ t, isRemovedCtrl c = true → isJsWs c = true) :
    cleanText (cleanText t) = cleanText t := by
  have he : cleanText t = jsTrim (collapseWs t) := cleanText_eq_trim_collapse t h
  have husp : ∀ c ∈ cleanText t, isJsWs c = true → c = ' ' := by
    intro c hc hw
    rcases mem_collapseWs t c (mem_cleanText t c hc) with h' | ⟨h1, _⟩
    · exact h'
    · rw [hw] at h1
      cases h1
  have hadj : noAdjWs (cleanText t) = true := by
    rw [he]
    exact noAdjWs_jsTrim _ ((collapseWsAux_noAdj t false).1)
  have hctrl : ∀ c ∈ cleanText t, isRemovedCtrl c = false := by
    intro c hc
    rcases mem_collapseWs t c (mem_cleanText t c hc) with rfl | ⟨h1, h2⟩
    · decide
    · by_cases hr : isRemovedCtrl c = true
      · rw [h c h2 hr] at h1
        cases h1
      · simpa using hr
  have hnl : '\n' ∉ cleanText t := newline_not_mem_cleanText t
  show jsTrim (removeCtrl (collapseNl (collapseWs (cleanText t)))) = cleanText t
  rw [show collapseWs (cleanText t) = cleanText t from
    collapseWsAux_self _ husp hadj]
  rw [show collapseNl (cleanText t) = cleanText t from
    collapseNlAux_eq_self _ 0 hnl]
  rw [removeCtrl_eq_self _ hctrl]
  exact cleanText_trimmed t

/-- Witness for the amended C2 at a concrete messy input without control
characters. -/
theorem cleanText_idem_no_ctrl_witness :
    cleanText (cleanText "  a \n\n b ".toList) = cleanText "  a \n\n b ".toList :=
  cleanText_idem_no_ctrl "  a \n\n b ".toList (by decide)

/-- C3 counterexample: on input `" abc "` the single produced chunk has
content `"abc"` but `token_count = 2 = ceil(5/4)`, computed from the
untrimmed buffer, while `ceil(len("abc")/4) = 1`. -/
theorem chunkText_token_count_cex :
    chunkText " abc ".toList 500 100 = [⟨"abc".toList, 2, 0⟩] ∧
      estimateTokenCount "abc".toList = 1 :=
  ⟨by decide, by decide⟩

/-- C3 (amended): every chunk's `token_count` is `ceil(len/4)` of the
chunk's pre-trim accumulation buffer — a string whose trim is the stored
content — hence `token_count` is at least `ceil(len(content)/4)`, with
equality whenever the buffer carries no leading or trailing whitespace. -/
theorem chunkText_token_count (text : List Char) (chunkSize overlap : Nat)
    (c : Chunk) (hc : c ∈ chunkText text chunkSize overlap) :
    ∃ b, c.content = jsTrim b ∧ c.token_count = estimateTokenCount b ∧
      estimateTokenCount c.content ≤ c.token_count := by
  have key : ∃ b, c.content = jsTrim b ∧ c.token_count = estimateTokenCount b := by
    rw [chunkText_def] at hc
    split at hc
    · rw [List.mem_singleton] at hc
      subst hc
      exact ⟨text, rfl, rfl⟩
    · exact chunkLoop_token _ _ _ _ _ c hc
  rcases key with ⟨b, hb1, hb2⟩
  refine ⟨b, hb1, hb2, ?_⟩
  rw [hb1, hb2]
  exact estimateTokenCount_jsTrim_le b

/-- Witness for the amended C3 at the counterexample's concrete chunk. -/
theorem chunkText_token_count_witness :
    ∃ b, (Chunk.mk "abc".toList 2 0).content = jsTrim b ∧
      (Chunk.mk "abc".toList 2 0).token_count = estimateTokenCount b ∧
      estimateTokenCount (Chunk.mk "abc".toList 2 0).content ≤
        (Chunk.mk "abc".toList 2 0).token_count :=
  chunkText_token_count " abc ".toList 500 100 ⟨"abc".toList, 2, 0⟩ (by decide)

/-- C4: for every input text the `chunk_index` fields of the produced
chunks are exactly `0..n`: zero-based, contiguous, with no gaps, in
emission order. -/
theorem chunkText_indices (t : List Char) (chunkSize overlap : Nat) :
    (chunkText t chunkSize overlap).map Chunk.chunk_index =
      List.range (chunkText t chunkSize overlap).length := by
  rw [chunkText_def]
  split
  · simp
    decide
  · rw [List.range_eq_range']
    exact chunkLoop_indices _ _ _ _ _

/-- C5: for every document, the chunks produced from its cleaned text
jointly contain at least as many characters as the cleaned text. -/
theorem chunkText_covers_cleanText (t : List Char) (chunkSize overlap : Nat) :
    (cleanText t).length ≤
      ((chunkText (cleanText t) chunkSize overlap).map
        (fun c => c.content.length)).sum := by
  by_cases h : cleanText t = []
  · rw [h]
    simp [chunkText_nil]
  · rw [chunkText_single (cleanText t) chunkSize overlap
      (newline_not_mem_cleanText t) (cleanText_trimmed t) h]
    simp

/-- C6: `storeChunks` called with chunks and embeddings arrays of different
lengths fails immediately with the length-mismatch error, before any write;
when the lengths match and every batch insert succeeds it returns exactly
`chunks.length` as the stored count, the written batches of at most 50
records jointly being exactly the prepared records. -/
theorem storeChunks_spec (companyId documentId : List Char)
    (chunks : List Chunk) (embeddings : List Emb) (insertOk : Nat → Bool) :
    (chunks.length ≠ embeddings.length →
      storeChunksM companyId documentId chunks embeddings insertOk =
        ([], Except.error "Chunks and embeddings arrays must have the same length")) ∧
    (chunks.length = embeddings.length → (∀ i, insertOk i = true) →
      (storeChunksM companyId documentId chunks embeddings insertOk).2 =
          Except.ok chunks.length ∧
        (storeChunksM companyId documentId chunks embeddings insertOk).1.flatten =
          mkChunkRecords companyId documentId chunks embeddings ∧
        ∀ b ∈ (storeChunksM companyId documentId chunks embeddings insertOk).1,
          b.length ≤ 50) := by
  constructor
  · intro hne
    unfold storeChunksM
    rw [if_pos hne]
  · intro hlen hok
    rw [storeChunksM_ok companyId documentId chunks embeddings insertOk hlen hok]
    refine ⟨rfl, ?_, ?_⟩
    · rw [batchify, batchAux_flatten]
      simp
    · intro b hb
      exact batchAux_size_le 50 _ [] (by decide) b hb

/-- Witness for C6: a concrete mismatched call fails with no writes, and a
concrete matched call stores exactly one chunk. -/
theorem storeChunks_spec_witness :
    storeChunksM "c".toList "d".toList [⟨"x".toList, 1, 0⟩] []
        (fun _ => true) =
      ([], Except.error "Chunks and embeddings arrays must have the same length") ∧
    (storeChunksM "c".toList "d".toList [⟨"x".toList, 1, 0⟩] [[(3 : Int)]]
        (fun _ => true)).2 = Except.ok 1 :=
  ⟨(storeChunks_spec "c".toList "d".toList [⟨"x".toList, 1, 0⟩] []
      (fun _ => true)).1 (by decide),
   ((storeChunks_spec "c".toList "d".toList [⟨"x".toList, 1, 0⟩] [[(3 : Int)]]
      (fun _ => true)).2 (by decide) (fun _ => rfl)).1⟩

/-- C7: `retrieveRelevantChunks` called with a companyId that does not
match the canonical UUID shape throws the invalid-format error without
issuing the vector-search RPC (first component `false`). -/
theorem retrieveRelevantChunks_uuid_guard (companyId : List Char)
    (searchResult : Except String (List RetrievedRow))
    (h : isUuidShaped companyId = false) :
    retrieveRelevantChunksM companyId searchResult =
      (false,
        Except.error ("Failed to retrieve chunks: Invalid company ID format: "
          ++ String.mk companyId
          ++ ". Must be a valid UUID. Did you visit the Knowledge page to create a company?")) := by
  unfold retrieveRelevantChunksM
  rw [if_neg (by simp [h])]

/-- Witness for C7 at the spec's own example `"not-a-uuid"`. -/
theorem retrieveRelevantChunks_uuid_guard_witness :
    retrieveRelevantChunksM "not-a-uuid".toList (Except.ok []) =
      (false,
        Except.error ("Failed to retrieve chunks: Invalid company ID format: "
          ++ String.mk "not-a-uuid".toList
          ++ ". Must be a valid UUID. Did you visit the Knowledge page to create a company?")) :=
  retrieveRelevantChunks_uuid_guard "not-a-uuid".toList (Except.ok []) (by decide)

/-- C8 counterexample: when the voice-settings fetch errors but retrieval
succeeded with one chunk, `buildRagContext` does not return the empty
context object — the retrieved chunks are kept and `hasContext` is true
(the error is absorbed inside `getCompanyVoiceSettings` as a `null`). -/
theorem buildRagContext_voice_error_cex :
    buildRagContextM "00000000-0000-0000-0000-000000000000".toList
        ⟨Except.ok ([] : Emb),
         Except.ok [⟨"doc.pdf".toList, "hello".toList⟩],
         Except.error "voice select failed"⟩ ≠ emptyRagContext ∧
      (buildRagContextM "00000000-0000-0000-0000-000000000000".toList
        ⟨Except.ok ([] : Emb),
         Except.ok [⟨"doc.pdf".toList, "hello".toList⟩],
         Except.error "voice select failed"⟩).hasContext = true :=
  ⟨by decide, by decide⟩

/-- C8 (amended): `buildRagContext` never throws; an error in query
embedding or in chunk retrieval (including a malformed companyId) yields
the empty context object `{chunks: [], formattedChunks: "", voiceSettings:
null, formattedVoice: "", hasContext: false}`; a voice-settings fetch error
is absorbed to a null `voiceSettings` without discarding retrieved chunks;
and on the success path `hasContext` is true iff at least one chunk was
retrieved or voice settings exist (are non-null). -/
theorem buildRagContext_spec (companyId : List Char) (env : RagEnv) :
    ((∃ e, env.embedResult = Except.error e) →
        buildRagContextM companyId env = emptyRagContext) ∧
    (isUuidShaped companyId = false →
        buildRagContextM companyId env = emptyRagContext) ∧
    ((∃ e, env.searchResult = Except.error e) →
        buildRagContextM companyId env = emptyRagContext) ∧
    (∀ emb rows, env.embedResult = Except.ok emb →
      isUuidShaped companyId = true → env.searchResult = Except.ok rows →
        buildRagContextM companyId env =
          ⟨rows, formatChunksForContext rows,
            getCompanyVoiceSettingsM env.voiceResult,
            formatVoiceSettingsForPrompt (getCompanyVoiceSettingsM env.voiceResult),
            decide (0 < rows.length) ||
              (getCompanyVoiceSettingsM env.voiceResult).isSome⟩) := by
  refine ⟨?_, ?_, ?_, ?_⟩
  · rintro ⟨e, he⟩
    simp [buildRagContextM, he]
  · intro h
    cases h1 : env.embedResult with
    | error e => simp [buildRagContextM, h1]
    | ok emb =>
      simp [buildRagContextM, h1, retrieveRelevantChunksM, h]
  · rintro ⟨e, he⟩
    cases h1 : env.embedResult with
    | error e2 => simp [buildRagContextM, h1]
    | ok emb =>
      by_cases h2 : isUuidShaped companyId = true
      · simp [buildRagContextM, h1, retrieveRelevantChunksM, h2, he]
      · simp only [Bool.not_eq_true] at h2
        simp [buildRagContextM, h1, retrieveRelevantChunksM, h2]
  · intro emb rows h1 h2 h3
    simp [buildRagContextM, h1, retrieveRelevantChunksM, h2, h3]

/-- Witness for the amended C8: a malformed companyId yields the empty
context. -/
theorem buildRagContext_spec_witness :
    buildRagContextM "not-a-valid-company".toList
        ⟨Except.ok ([] : Emb), Except.ok [], Except.ok []⟩ = emptyRagContext :=
  (buildRagContext_spec "not-a-valid-company".toList
    ⟨Except.ok ([] : Emb), Except.ok [], Except.ok []⟩).2.1 (by decide)

/-- C9: in one run of the background ingestion job, a failure in
processing (extraction, cleaning or chunking, including a failing PDF
binary parse), in embedding generation, or in chunk storage updates the
owning document row to status "failed" with a non-null error_message, with
zero chunk rows written whenever the failure precedes storage; full
success updates it to "completed" with total_chunks and total_tokens set. -/
theorem processDocumentAsync_spec (env : IngestEnv) (cid did : List Char)
    (doc : DocRow) :
    ((∃ e, processDocumentM env.extractResult = Except.error e) →
      (processDocumentAsyncM env cid did doc).1.status = "failed" ∧
        (processDocumentAsyncM env cid did doc).1.error_message.isSome = true ∧
        (processDocumentAsyncM env cid did doc).2 = []) ∧
    (∀ res e, processDocumentM env.extractResult = Except.ok res →
      env.embedBatchResult = Except.error e →
      (processDocumentAsyncM env cid did doc).1.status = "failed" ∧
        (processDocumentAsyncM env cid did doc).1.error_message.isSome = true ∧
        (processDocumentAsyncM env cid did doc).2 = []) ∧
    (∀ res embs e, processDocumentM env.extractResult = Except.ok res →
      env.embedBatchResult = Except.ok embs →
      (storeChunksM cid did res.chunks embs env.insertOk).2 = Except.error e →
      (processDocumentAsyncM env cid did doc).1.status = "failed" ∧
        (processDocumentAsyncM env cid did doc).1.error_message = some e) ∧
    (∀ res embs, processDocumentM env.extractResult = Except.ok res →
      env.embedBatchResult = Except.ok embs →
      res.chunks.length = embs.length → (∀ i, env.insertOk i = true) →
      (processDocumentAsyncM env cid did doc).1 =
          ⟨"completed", doc.error_message, some res.chunks.length,
            some res.totalTokens⟩ ∧
        (processDocumentAsyncM env cid did doc).2.flatten =
          mkChunkRecords cid did res.chunks embs) := by
  refine ⟨?_, ?_, ?_, ?_⟩
  · rintro ⟨e, he⟩
    simp [processDocumentAsyncM, he]
  · intro res e h1 h2
    simp [processDocumentAsyncM, h1, h2]
  · intro res embs e h1 h2 h3
    rcases hp : storeChunksM cid did res.chunks embs env.insertOk with ⟨ws, r⟩
    rw [hp] at h3
    simp only at h3
    subst h3
    simp [processDocumentAsyncM, h1, h2, hp]
  · intro res embs h1 h2 hlen hok
    have hs := storeChunksM_ok cid did res.chunks embs env.insertOk hlen hok
    constructor
    · simp [processDocumentAsyncM, h1, h2, hs]
    · simp only [processDocumentAsyncM, h1, h2, hs]
      rw [batchify, batchAux_flatten]
      simp

/-- Witness for C9: a run whose PDF parse fails marks the document failed
with an error message and writes no chunk rows. -/
theorem processDocumentAsync_spec_witness :
    (processDocumentAsyncM
        ⟨Except.error "Failed to extract text: bad XRef entry", Except.ok [],
          fun _ => true⟩
        "c".toList "d".toList ⟨"processing", none, none, none⟩).1.status =
        "failed" ∧
      (processDocumentAsyncM
        ⟨Except.error "Failed to extract text: bad XRef entry", Except.ok [],
          fun _ => true⟩
        "c".toList "d".toList
        ⟨"processing", none, none, none⟩).1.error_message.isSome = true ∧
      (processDocumentAsyncM
        ⟨Except.error "Failed to extract text: bad XRef entry", Except.ok [],
          fun _ => true⟩
        "c".toList "d".toList ⟨"processing", none, none, none⟩).2 = [] :=
  (processDocumentAsync_spec
    ⟨Except.error "Failed to extract text: bad XRef entry", Except.ok [],
      fun _ => true⟩
    "c".toList "d".toList ⟨"processing", none, none, none⟩).1
    ⟨"Failed to extract text: bad XRef entry", rfl⟩

/-- C10: `processDocument` and `processUrl` reject every input whose
cleaned text is shorter than 50 characters with their dedicated
too-short-or-empty error, before any chunking, embedding or storage;
inputs whose cleaned text has 50 or more characters pass the check and
succeed with the chunked result. -/
theorem process_short_input_guard (raw : List Char) (chunkSize overlap : Nat) :
    ((cleanText raw).length < 50 →
      processDocumentM (Except.ok raw) chunkSize overlap =
          Except.error "Document too short or empty after cleaning" ∧
        processUrlM (Except.ok raw) chunkSize overlap =
          Except.error "URL content too short or empty after cleaning") ∧
    (50 ≤ (cleanText raw).length →
      processDocumentM (Except.ok raw) chunkSize overlap =
          Except.ok ⟨cleanText raw, chunkText (cleanText raw) chunkSize overlap,
            ((chunkText (cleanText raw) chunkSize overlap).map
              Chunk.token_count).sum⟩ ∧
        processUrlM (Except.ok raw) chunkSize overlap =
          Except.ok ⟨cleanText raw, chunkText (cleanText raw) chunkSize overlap,
            ((chunkText (cleanText raw) chunkSize overlap).map
              Chunk.token_count).sum⟩) := by
  constructor
  · intro h
    constructor
    · simp [processDocumentM, h]
    · simp [processUrlM, h]
  · intro h
    constructor
    · simp [processDocumentM, Nat.not_lt.mpr h]
    · simp [processUrlM, Nat.not_lt.mpr h]

/-- Witness for C10: a short input is rejected by both functions. -/
theorem process_short_input_guard_witness :
    processDocumentM (Except.ok "tiny document".toList) 500 100 =
        Except.error "Document too short or empty after cleaning" ∧
      processUrlM (Except.ok "tiny document".toList) 500 100 =
        Except.error "URL content too short or empty after cleaning" :=
  (process_short_input_guard "tiny document".toList 500 100).1 (by decide)

end Replier
